import Mathlib

/-!
Shallow embedding of the expense-tracker record store and query engine
(`ExpenseTracker` in `exam folder/examcode.py`).

Modelling conventions:
* pandas `DataFrame` rows become a `List Record`; the persisted CSV body
  (header row abstracted away) becomes a `List RawRow` of raw string cells.
* Python `float` values are modelled as exact rationals `ℚ`.  The parser
  `pyFloat` models the core of Python's `float()` grammar (optional
  whitespace, sign, decimal digits with an optional point, optional
  exponent); the `inf`/`nan` spellings and digit-group underscores are
  outside the model.
* `datetime.strptime(s, "%Y-%m-%d")` is modelled by `strptimeYMD`
  following CPython's `_strptime.py` patterns: `%Y` is exactly four
  digits, `%m` one or two digits, `%d` one or two digits or a space
  followed by a nonzero digit, the whole string must be consumed, and
  the calendar is validated (leap years, years 1-9999).
* `pd.to_datetime(s, errors="coerce")` and `pd.to_numeric(errors="coerce")`
  on cells are modelled by `pdToDatetime` / `pdToNumeric` on the ISO
  core, returning `none` for `NaT`/`NaN`; `pdToDatetime` additionally
  coerces dates outside the `datetime64[ns]` range to `NaT`, and
  `add_expense`'s `pd.to_datetime(date)` storage step raises
  `OutOfBoundsDatetime` (a `ValueError`) there instead.
* `pd.read_csv` turns an empty cell or any default NA spelling into NaN;
  `readCell` models this with `Option String`.
* Python `str.strip` / `str.lower` are modelled on the ASCII core
  (`pyStrip`, `pyLower`).
-/

namespace ExamCode

/-- The ASCII whitespace characters stripped by Python's `str.strip()`
(the unicode extras are outside the model). -/
def isSpaceChar (c : Char) : Bool :=
  c = ' ' || c = '\t' || c = '\n' || c = '\r' || c = '\x0b' || c = '\x0c'

/-- ASCII decimal digit test. -/
def isDigitChar (c : Char) : Bool :=
  48 ≤ c.toNat && c.toNat ≤ 57

/-- Strip `isSpaceChar` characters from both ends of a character list. -/
def stripChars (l : List Char) : List Char :=
  List.rdropWhile isSpaceChar (List.dropWhile isSpaceChar l)

/-- Python `str.strip()` (ASCII whitespace core). -/
def pyStrip (s : String) : String :=
  String.mk (stripChars s.data)

/-- Python `str.lower()` on one character (ASCII core). -/
def pyLowerChar (c : Char) : Char :=
  if 65 ≤ c.toNat && c.toNat ≤ 90 then Char.ofNat (c.toNat + 32) else c

/-- Python `str.lower()` (ASCII core). -/
def pyLower (s : String) : String :=
  String.mk (s.data.map pyLowerChar)

/-- The decimal digit character for `d` (defined for `d < 10`). -/
def digitChar : ℕ → Char
  | 0 => '0' | 1 => '1' | 2 => '2' | 3 => '3' | 4 => '4'
  | 5 => '5' | 6 => '6' | 7 => '7' | 8 => '8' | _ => '9'

/-- Numeric value of a big-endian list of digit characters. -/
def digitsVal (l : List Char) : ℕ :=
  l.foldl (fun a c => 10 * a + (c.toNat - 48)) 0

/-- Big-endian decimal digit characters of `n`, with `fuel` bounding the
recursion depth (`fuel = n` always suffices). -/
def natDigitsAux : ℕ → ℕ → List Char
  | 0, _ => []
  | fuel + 1, n => if n = 0 then [] else natDigitsAux fuel (n / 10) ++ [digitChar (n % 10)]

/-- Big-endian decimal digit characters of `n` (nonempty; `0 ↦ "0"`). -/
def natStrBE (n : ℕ) : List Char :=
  if n = 0 then ['0'] else natDigitsAux n n

/-- Left-pad a digit string with `'0'` to width `k`. -/
def padTo (k : ℕ) (l : List Char) : List Char :=
  List.replicate (k - l.length) '0' ++ l

/-- A calendar date, year/month/day. -/
structure Date where
  y : ℕ
  m : ℕ
  d : ℕ
deriving DecidableEq

/-- Gregorian leap-year rule. -/
def leapYear (y : ℕ) : Bool :=
  y % 4 = 0 && (y % 100 != 0 || y % 400 = 0)

/-- Days in a month. -/
def daysInMonth (y m : ℕ) : ℕ :=
  if m = 2 then (if leapYear y then 29 else 28)
  else if m = 4 ∨ m = 6 ∨ m = 9 ∨ m = 11 then 30
  else 31

/-- Calendar validity as enforced by Python `datetime` (years 1-9999). -/
def validDate (dt : Date) : Bool :=
  decide (1 ≤ dt.y) && decide (dt.y ≤ 9999) &&
  decide (1 ≤ dt.m) && decide (dt.m ≤ 12) &&
  decide (1 ≤ dt.d) && decide (dt.d ≤ daysInMonth dt.y dt.m)

/-- Date comparison (chronological order = lexicographic on y, m, d). -/
def dateLe (a b : Date) : Bool :=
  decide (a.y < b.y) ||
    (decide (a.y = b.y) &&
      (decide (a.m < b.m) || (decide (a.m = b.m) && decide (a.d ≤ b.d))))

/-- The pure dates representable as (midnight) `datetime64[ns]`
timestamps: `pd.Timestamp.min` is 1677-09-21 00:12:43.145224193 and
`pd.Timestamp.max` is 2262-04-11 23:47:16.854775807, so a date-only
value fits exactly when it lies in 1677-09-22 .. 2262-04-11. -/
def inPandasBounds (dt : Date) : Bool :=
  dateLe ⟨1677, 9, 22⟩ dt && dateLe dt ⟨2262, 4, 11⟩

/-- The day field of CPython's `%d` directive, whose regex in
`_strptime.py` is `3[01]|[12]\d|0[1-9]|[1-9]| [1-9]`: one or two
digits, or a space followed by a nonzero digit.  Shapes the regex
rejects but this accepts (like "0" or "00") carry an out-of-range value
that the calendar check rejects, raising the same `ValueError`. -/
def dayGroup (ds : List Char) : Option ℕ :=
  match ds with
  | [c1, c2] =>
    if c1 = ' ' then
      if 49 ≤ c2.toNat ∧ c2.toNat ≤ 57 then some (c2.toNat - 48) else none
    else
      if isDigitChar c1 ∧ isDigitChar c2 then some (digitsVal [c1, c2]) else none
  | [c1] => if isDigitChar c1 then some (digitsVal [c1]) else none
  | _ => none

/-- `datetime.strptime(s, "%Y-%m-%d")`, following CPython's
`_strptime.py`: `%Y` is exactly four digits, `%m` one or two digits,
`%d` per `dayGroup`, the dashes are literal, the whole string must be
consumed, and the resulting calendar date is validated (leap years,
years 1-9999); `none` models the `ValueError`. -/
def strptimeYMD (s : String) : Option Date :=
  let cs := s.data
  let ys := cs.takeWhile (fun c => c != '-')
  match cs.dropWhile (fun c => c != '-') with
  | [] => none
  | _ :: r1 =>
    let ms := r1.takeWhile (fun c => c != '-')
    match r1.dropWhile (fun c => c != '-') with
    | [] => none
    | _ :: ds =>
      if ys.length = 4 ∧ ys.all isDigitChar ∧
         ms ≠ [] ∧ ms.length ≤ 2 ∧ ms.all isDigitChar then
        match dayGroup ds with
        | none => none
        | some dd =>
          let dt : Date := ⟨digitsVal ys, digitsVal ms, dd⟩
          if validDate dt then some dt else none
      else none

/-- `pd.to_datetime(s, errors="coerce")` on a string cell, modelled on
the ISO `YYYY-MM-DD` core; a date outside the `datetime64[ns]` range is
coerced to `NaT` (`none`), like any unparsable string. -/
def pdToDatetime (s : String) : Option Date :=
  match strptimeYMD s with
  | none => none
  | some dt => if inPandasBounds dt then some dt else none

/-- Exponent part of a float literal: optional sign plus digits. -/
def parseExpPart (cs : List Char) : Option ℤ :=
  match cs with
  | '-' :: r => if r ≠ [] ∧ r.all isDigitChar then some (-(digitsVal r : ℤ)) else none
  | '+' :: r => if r ≠ [] ∧ r.all isDigitChar then some (digitsVal r : ℤ) else none
  | r => if r ≠ [] ∧ r.all isDigitChar then some (digitsVal r : ℤ) else none

/-- Mantissa of a float literal: digits with an optional decimal point,
at least one digit overall. -/
def parseMantissa (cs : List Char) : Option ℚ :=
  let ip := cs.takeWhile (fun c => c != '.')
  match cs.dropWhile (fun c => c != '.') with
  | [] =>
    if ip ≠ [] ∧ ip.all isDigitChar then some ((digitsVal ip : ℚ)) else none
  | _ :: fp =>
    if (ip ≠ [] ∨ fp ≠ []) ∧ ip.all isDigitChar ∧ fp.all isDigitChar then
      some ((digitsVal ip : ℚ) + (digitsVal fp : ℚ) / (10 : ℚ) ^ fp.length)
    else none

/-- Unsigned float literal: mantissa with optional `e`/`E` exponent. -/
def parseUnsignedFloat (cs : List Char) : Option ℚ :=
  let mant := cs.takeWhile (fun c => c != 'e' && c != 'E')
  match cs.dropWhile (fun c => c != 'e' && c != 'E') with
  | [] => parseMantissa mant
  | _ :: ex =>
    (parseMantissa mant).bind fun m =>
      (parseExpPart ex).map fun e => m * (10 : ℚ) ^ e

/-- Python `float(s)`: strip surrounding whitespace, optional sign, then
an unsigned float literal; `none` models the `ValueError`. -/
def pyFloat (s : String) : Option ℚ :=
  match stripChars s.data with
  | [] => none
  | c :: rest =>
    if c = '-' then (parseUnsignedFloat rest).map (fun q => -q)
    else if c = '+' then parseUnsignedFloat rest
    else parseUnsignedFloat (c :: rest)

/-- `pd.to_numeric(cell, errors="coerce")` on a string cell, modelled by
the same numeric grammar as `float()`; `none` models `NaN`. -/
def pdToNumeric (s : String) : Option ℚ :=
  pyFloat s

/-- Least `k ≤ 1200` such that `q` has an exact `k`-digit decimal
expansion.  Every Python float is dyadic with denominator dividing
`2 ^ 1074`, hence admits such a `k`. -/
def decExp (q : ℚ) : Option ℕ :=
  (List.range 1201).find? (fun k => decide (q.den ∣ 10 ^ k))

/-- Serialization of an amount as `pandas.to_csv` writes a float: a
decimal literal with at least one fractional digit (`10 ↦ "10.0"`; the
exact digit count may differ from CPython's shortest-repr, the numeric
value does not). -/
def formatAmount (q : ℚ) : String :=
  match decExp q with
  | none => String.mk ['?']
  | some k =>
    let kk := k + 1
    let n := q.num.natAbs * (10 ^ kk / q.den)
    let ipart := natStrBE (n / 10 ^ kk)
    let fpart := padTo kk (natStrBE (n % 10 ^ kk))
    String.mk ((if q.num < 0 then ['-'] else []) ++ ipart ++ '.' :: fpart)

/-- Serialization of a date as `pandas.to_csv` writes a midnight
timestamp: zero-padded `YYYY-MM-DD`. -/
def formatDate (dt : Date) : String :=
  String.mk (padTo 4 (natStrBE dt.y) ++ '-' :: padTo 2 (natStrBE dt.m) ++ '-' :: padTo 2 (natStrBE dt.d))

/-- One cleaned in-memory expense record (a row of `self.data`). -/
structure Record where
  date : Date
  amount : ℚ
  category : String
  description : String
deriving DecidableEq

/-- One raw row of the persisted CSV body (header abstracted away):
the four cell texts as stored in the file. -/
structure RawRow where
  dateField : String
  amountField : String
  categoryField : String
  descriptionField : String
deriving DecidableEq

/-- The tracker's state: the in-memory collection `self.data` and the
rows of the CSV file at `self.filename`. -/
structure TrackerState where
  data : List Record
  file : List RawRow
deriving DecidableEq

/-- The cell spellings `pd.read_csv` reads as NaN by default. -/
def naValues : List String :=
  ["", "#N/A", "#N/A N/A", "#NA", "-1.#IND", "-1.#QNAN", "-NaN", "-nan",
   "1.#IND", "1.#QNAN", "<NA>", "N/A", "NA", "NULL", "NaN", "None",
   "n/a", "nan", "null"]

/-- Reading one CSV cell: NA spellings (and the empty cell) become NaN. -/
def readCell (s : String) : Option String :=
  if s ∈ naValues then none else some s

/-- Python `str(x)` on a possibly-NaN cell, as `astype(str)` applies it:
NaN prints as `"nan"`. -/
def pyStr : Option String → String
  | none => "nan"
  | some s => s

/-- `_clean_data` on one raw row: coerce-parse date and amount, coerce
category to trimmed text, then `dropna` drops the row if its date, amount
or description is NaN (the category column can no longer be NaN after
`astype(str)`). -/
def cleanRow (row : RawRow) : Option Record :=
  match (readCell row.dateField).bind pdToDatetime,
        (readCell row.amountField).bind pdToNumeric,
        readCell row.descriptionField with
  | some dt, some a, some desc =>
    some { date := dt, amount := a,
           category := pyStrip (pyStr (readCell row.categoryField)),
           description := desc }
  | _, _, _ => none

/-- Loading a CSV body and running `_clean_data` over it. -/
def loadAndClean (rows : List RawRow) : List Record :=
  rows.filterMap cleanRow

/-- `ExpenseTracker.__init__`: load and clean an existing file (which is
left untouched on disk), or start with an empty collection and persist
the empty (header-only) file. -/
def initTracker (existing : Option (List RawRow)) : TrackerState :=
  match existing with
  | some rows => { data := loadAndClean rows, file := rows }
  | none => { data := [], file := [] }

/-- Serialization of one record as `to_csv` writes it. -/
def serializeRecord (r : Record) : RawRow :=
  { dateField := formatDate r.date, amountField := formatAmount r.amount,
    categoryField := r.category, descriptionField := r.description }

/-- The failure messages `add_expense` prints: `invalidAmount` is
"Amount must be positive.", `invalidDateFormat` is "Invalid date format!
Use YYYY-MM-DD" (also reached when `float(amount)` raises `ValueError`,
because the `except ValueError` handler is shared). -/
inductive AddError where
  | invalidDateFormat : AddError
  | invalidAmount : AddError
deriving DecidableEq

/-- `ExpenseTracker.add_expense`: validate the date with `strptime` and
the amount with `float`, reject non-positive amounts, then build the new
row — where `pd.to_datetime(date)` raises `OutOfBoundsDatetime` (a
`ValueError` subclass, caught by the shared handler that prints the
date-format message) for dates outside the `datetime64[ns]` range —
append it (category stripped) and rewrite the whole CSV file.  On every
in-range string `strptime` accepts, `pd.to_datetime` stores the same
date. -/
def addExpense (s : TrackerState) (date amount category description : String) :
    (Bool × Option AddError) × TrackerState :=
  match strptimeYMD date with
  | none => ((false, some AddError.invalidDateFormat), s)
  | some dt =>
    match pyFloat amount with
    | none => ((false, some AddError.invalidDateFormat), s)
    | some a =>
      if a ≤ 0 then ((false, some AddError.invalidAmount), s)
      else if inPandasBounds dt then
        let newData := s.data ++
          [{ date := dt, amount := a, category := pyStrip category,
             description := description }]
        ((true, none), { data := newData, file := newData.map serializeRecord })
      else ((false, some AddError.invalidDateFormat), s)

/-- Sum of all amounts (`np.sum(self.data["Amount"])`). -/
def totalAmount (data : List Record) : ℚ :=
  (data.map Record.amount).sum

/-- Sum of the amounts of the records in a given category
(`self.data.groupby("Category")["Amount"].sum()` evaluated at one key). -/
def categorySum (data : List Record) (c : String) : ℚ :=
  ((data.filter (fun r => r.category = c)).map Record.amount).sum

/-- Result of `get_summary`: `noData` models the string
"No data available.", `stats` carries total and average.  The
`by_category` series of the source is `categorySum` evaluated at each
stored category. -/
inductive SummaryResult where
  | noData : SummaryResult
  | stats : ℚ → ℚ → SummaryResult
deriving DecidableEq

/-- `ExpenseTracker.get_summary`. -/
def getSummary (data : List Record) : SummaryResult :=
  if data.isEmpty then SummaryResult.noData
  else SummaryResult.stats (totalAmount data) (totalAmount data / (data.length : ℚ))

/-- The category normalization `filter_expenses` applies, both to the
working copy's `Category` column and to the supplied category list. -/
def catNorm (c : String) : String :=
  pyLower (pyStrip c)

/-- The working copy's row transformation:
`df["Category"] = df["Category"].astype(str).str.strip().str.lower()`. -/
def lowerRecord (r : Record) : Record :=
  { r with category := catNorm r.category }

/-- `df = df[df["Date"] >= pd.to_datetime(start_date, errors="coerce")]`:
comparison against `NaT` is elementwise `False`, so an unparsable bound
keeps no rows. -/
def stageStart (sd : Option String) (df : List Record) : List Record :=
  match sd with
  | none => df
  | some s =>
    match pdToDatetime s with
    | none => df.filter (fun _ => false)
    | some b => df.filter (fun r => dateLe b r.date)

/-- `df = df[df["Date"] <= pd.to_datetime(end_date, errors="coerce")]`. -/
def stageEnd (ed : Option String) (df : List Record) : List Record :=
  match ed with
  | none => df
  | some s =>
    match pdToDatetime s with
    | none => df.filter (fun _ => false)
    | some b => df.filter (fun r => dateLe r.date b)

/-- `df = df[df["Category"].isin([c.strip().lower() for c in categories])]`. -/
def stageCats (cats : Option (List String)) (df : List Record) : List Record :=
  match cats with
  | none => df
  | some cs =>
    let cl := cs.map catNorm
    df.filter (fun r => decide (r.category ∈ cl))

/-- `if min_amount: df = df[df["Amount"] >= min_amount]` — note the falsy
zero: a supplied `0` skips the filter. -/
def stageMin (mn : Option ℚ) (df : List Record) : List Record :=
  match mn with
  | none => df
  | some q => if q = 0 then df else df.filter (fun r => decide (q ≤ r.amount))

/-- `if max_amount: df = df[df["Amount"] <= max_amount]`. -/
def stageMax (mx : Option ℚ) (df : List Record) : List Record :=
  match mx with
  | none => df
  | some q => if q = 0 then df else df.filter (fun r => decide (r.amount ≤ q))

/-- `ExpenseTracker.filter_expenses`: work on a lower-cased-category copy
of `self.data`, apply the five optional constraints in order, return the
resulting frame; `self.data` itself is left untouched. -/
def filterExpenses (s : TrackerState) (sd ed : Option String)
    (cats : Option (List String)) (mn mx : Option ℚ) :
    List Record × TrackerState :=
  (stageMax mx (stageMin mn (stageCats cats
      (stageEnd ed (stageStart sd (s.data.map lowerRecord))))), s)

/-- The record-level hypotheses under which one row survives the
CSV-and-clean round trip untouched. -/
def RoundTrippable (r : Record) : Prop :=
  validDate r.date = true ∧ inPandasBounds r.date = true ∧
    (decExp r.amount).isSome = true ∧
    pyStrip r.category = r.category ∧ r.category ∉ naValues ∧
    r.description ∉ naValues

instance (r : Record) : Decidable (RoundTrippable r) := by
  unfold RoundTrippable
  infer_instance


end ExamCode

namespace ExamCode

/-! ### Digit rendering and parsing -/

theorem digitChar_toNat {d : ℕ} (h : d < 10) : (digitChar d).toNat = 48 + d := by
  interval_cases d <;> rfl

theorem isDigitChar_digitChar {d : ℕ} (h : d < 10) : isDigitChar (digitChar d) = true := by
  interval_cases d <;> rfl

theorem digitsVal_foldl (l : List Char) (a : ℕ) :
    l.foldl (fun a c => 10 * a + (c.toNat - 48)) a = a * 10 ^ l.length + digitsVal l := by
  induction l generalizing a with
  | nil => simp [digitsVal]
  | cons c t ih =>
    simp only [List.foldl_cons, List.length_cons, digitsVal]
    rw [ih, ih (10 * 0 + (c.toNat - 48))]
    ring

theorem digitsVal_cons (c : Char) (t : List Char) :
    digitsVal (c :: t) = (c.toNat - 48) * 10 ^ t.length + digitsVal t := by
  simp only [digitsVal, List.foldl_cons]
  rw [digitsVal_foldl]
  simp [digitsVal]

theorem digitsVal_append_singleton (l : List Char) (c : Char) :
    digitsVal (l ++ [c]) = 10 * digitsVal l + (c.toNat - 48) := by
  simp only [digitsVal, List.foldl_append, List.foldl_cons, List.foldl_nil]

theorem digitsVal_natDigitsAux (fuel n : ℕ) (h : n ≤ fuel) :
    digitsVal (natDigitsAux fuel n) = n := by
  induction fuel generalizing n with
  | zero => interval_cases n; rfl
  | succ fuel ih =>
    by_cases hn : n = 0
    · simp [natDigitsAux, hn, digitsVal]
    · rw [natDigitsAux, if_neg hn, digitsVal_append_singleton,
        ih (n / 10) (by omega), digitChar_toNat (Nat.mod_lt n (by norm_num))]
      omega

theorem digitsVal_natStrBE (n : ℕ) : digitsVal (natStrBE n) = n := by
  by_cases hn : n = 0
  · simp [natStrBE, hn]; rfl
  · rw [natStrBE, if_neg hn, digitsVal_natDigitsAux n n le_rfl]

theorem natDigitsAux_all_digits (fuel n : ℕ) :
    ∀ c ∈ natDigitsAux fuel n, isDigitChar c = true := by
  induction fuel generalizing n with
  | zero => simp [natDigitsAux]
  | succ fuel ih =>
    by_cases hn : n = 0
    · simp [natDigitsAux, hn]
    · rw [natDigitsAux, if_neg hn]
      intro c hc
      rcases List.mem_append.1 hc with h | h
      · exact ih _ c h
      · rcases List.mem_singleton.1 h with rfl
        exact isDigitChar_digitChar (Nat.mod_lt n (by norm_num))

theorem natStrBE_all_digits (n : ℕ) : ∀ c ∈ natStrBE n, isDigitChar c = true := by
  by_cases hn : n = 0
  · simp [natStrBE, hn]; rfl
  · rw [natStrBE, if_neg hn]; exact natDigitsAux_all_digits n n

theorem natStrBE_ne_nil (n : ℕ) : natStrBE n ≠ [] := by
  by_cases hn : n = 0
  · simp [natStrBE, hn]
  · rw [natStrBE, if_neg hn]
    cases n with
    | zero => exact absurd rfl hn
    | succ m =>
      rw [natDigitsAux, if_neg hn]
      simp

theorem natDigitsAux_length (fuel n k : ℕ) (h : n < 10 ^ k) :
    (natDigitsAux fuel n).length ≤ k := by
  induction fuel generalizing n k with
  | zero => simp [natDigitsAux]
  | succ fuel ih =>
    by_cases hn : n = 0
    · simp [natDigitsAux, hn]
    · rw [natDigitsAux, if_neg hn]
      have hk : k ≠ 0 := by
        rintro rfl
        simp only [pow_zero, Nat.lt_one_iff] at h
        exact hn h
      obtain ⟨k', rfl⟩ : ∃ k', k = k' + 1 := ⟨k - 1, by omega⟩
      have hdiv : n / 10 < 10 ^ k' :=
        Nat.div_lt_of_lt_mul (by rw [mul_comm]; simpa [pow_succ] using h)
      simpa using Nat.add_le_add_right (ih (n / 10) k' hdiv) 1

theorem natStrBE_length (n k : ℕ) (h : n < 10 ^ k) (hk : 1 ≤ k) :
    (natStrBE n).length ≤ k := by
  by_cases hn : n = 0
  · simpa [natStrBE, hn] using hk
  · rw [natStrBE, if_neg hn]; exact natDigitsAux_length n n k h

theorem padTo_length (k : ℕ) (l : List Char) (h : l.length ≤ k) :
    (padTo k l).length = k := by
  simp only [padTo, List.length_append, List.length_replicate]
  omega

theorem digitsVal_padTo (k : ℕ) (l : List Char) : digitsVal (padTo k l) = digitsVal l := by
  simp only [padTo, digitsVal, List.foldl_append]
  congr 1
  induction (k - l.length) with
  | zero => rfl
  | succ j ih => simpa [List.replicate_succ] using ih

theorem padTo_all_digits (k : ℕ) (l : List Char) (h : ∀ c ∈ l, isDigitChar c = true) :
    ∀ c ∈ padTo k l, isDigitChar c = true := by
  intro c hc
  rcases List.mem_append.1 hc with hrep | hl
  · rcases List.eq_of_mem_replicate hrep with rfl; rfl
  · exact h c hl

/-! ### takeWhile / dropWhile splitting -/

theorem takeWhile_all_append {p : Char → Bool} {ds : List Char} {c : Char} (es : List Char)
    (h : ∀ a ∈ ds, p a = true) (hc : p c = false) :
    (ds ++ c :: es).takeWhile p = ds := by
  induction ds with
  | nil => simp [List.takeWhile_cons, hc]
  | cons d t ih =>
    have hd : p d = true := h d (List.mem_cons_self d t)
    simp only [List.cons_append, List.takeWhile_cons, hd, if_true]
    rw [ih (fun a ha => h a (List.mem_cons_of_mem d ha))]

theorem dropWhile_all_append {p : Char → Bool} {ds : List Char} {c : Char} (es : List Char)
    (h : ∀ a ∈ ds, p a = true) (hc : p c = false) :
    (ds ++ c :: es).dropWhile p = c :: es := by
  induction ds with
  | nil => simp [List.dropWhile_cons, hc]
  | cons d t ih =>
    have hd : p d = true := h d (List.mem_cons_self d t)
    simp only [List.cons_append, List.dropWhile_cons, hd, if_true]
    exact ih (fun a ha => h a (List.mem_cons_of_mem d ha))

theorem takeWhile_all (p : Char → Bool) (l : List Char) (h : ∀ a ∈ l, p a = true) :
    l.takeWhile p = l := by
  induction l with
  | nil => rfl
  | cons d t ih =>
    simp only [List.takeWhile_cons, h d (List.mem_cons_self d t), if_true]
    rw [ih (fun a ha => h a (List.mem_cons_of_mem d ha))]

theorem dropWhile_all (p : Char → Bool) (l : List Char) (h : ∀ a ∈ l, p a = true) :
    l.dropWhile p = [] := by
  induction l with
  | nil => rfl
  | cons d t ih =>
    simp only [List.dropWhile_cons, h d (List.mem_cons_self d t), if_true]
    exact ih (fun a ha => h a (List.mem_cons_of_mem d ha))

end ExamCode

namespace ExamCode

/-! ### Character classes and stripping -/

theorem isDigitChar_ne {c d : Char} (h : isDigitChar c = true) (hd : 48 ≤ d.toNat → 57 < d.toNat) :
    c ≠ d := by
  rintro rfl
  simp only [isDigitChar, Bool.and_eq_true, decide_eq_true_eq] at h
  omega

theorem isDigitChar_bne_dash {c : Char} (h : isDigitChar c = true) : (c != '-') = true :=
  bne_iff_ne.2 (isDigitChar_ne h (by intro h2; exact absurd h2 (by decide)))

theorem isDigitChar_bne_dot {c : Char} (h : isDigitChar c = true) : (c != '.') = true :=
  bne_iff_ne.2 (isDigitChar_ne h (by intro h2; exact absurd h2 (by decide)))

theorem isDigitChar_bne_exp {c : Char} (h : isDigitChar c = true) :
    (c != 'e' && c != 'E') = true := by
  have h1 : c ≠ 'e' := isDigitChar_ne h (fun _ => by decide)
  have h2 : c ≠ 'E' := isDigitChar_ne h (fun _ => by decide)
  simp [bne_iff_ne, h1, h2]

theorem isDigitChar_not_space {c : Char} (h : isDigitChar c = true) : isSpaceChar c = false := by
  simp only [isDigitChar, Bool.and_eq_true, decide_eq_true_eq] at h
  simp only [isSpaceChar, Bool.or_eq_false_iff, decide_eq_false_iff_not]
  refine ⟨⟨⟨⟨⟨?_, ?_⟩, ?_⟩, ?_⟩, ?_⟩, ?_⟩ <;> (rintro rfl; exact absurd h (by decide))

theorem dropWhile_of_all_neg {p : Char → Bool} {l : List Char}
    (h : ∀ c ∈ l, p c = false) : l.dropWhile p = l := by
  cases l with
  | nil => rfl
  | cons c t => simp [List.dropWhile_cons, h c (List.mem_cons_self c t)]

theorem rdropWhile_of_all_neg {p : Char → Bool} {l : List Char}
    (h : ∀ c ∈ l, p c = false) : List.rdropWhile p l = l := by
  rw [List.rdropWhile, dropWhile_of_all_neg (fun c hc => h c (List.mem_reverse.1 hc)),
    List.reverse_reverse]

theorem stripChars_of_no_space {l : List Char}
    (h : ∀ c ∈ l, isSpaceChar c = false) : stripChars l = l := by
  rw [stripChars, dropWhile_of_all_neg h, rdropWhile_of_all_neg h]

theorem dropWhile_stable_of_append {p : Char → Bool} {b t : List Char}
    (h : List.dropWhile p (b ++ t) = b ++ t) : List.dropWhile p b = b := by
  cases b with
  | nil => rfl
  | cons x b' =>
    have hx : p x = false := by
      by_contra hx
      rw [Bool.not_eq_false] at hx
      rw [List.cons_append, List.dropWhile_cons, hx, if_pos rfl] at h
      have hlen := congrArg List.length h
      have hle := (List.dropWhile_sublist (l := b' ++ t) p).length_le
      simp only [List.length_cons] at hlen
      omega
    simp [List.dropWhile_cons, hx]

theorem stripChars_idem (l : List Char) : stripChars (stripChars l) = stripChars l := by
  have hA : List.dropWhile isSpaceChar (List.dropWhile isSpaceChar l)
      = List.dropWhile isSpaceChar l := List.dropWhile_idempotent _ _
  set A := List.dropWhile isSpaceChar l with hAdef
  have hpre := List.rdropWhile_prefix isSpaceChar A
  obtain ⟨t, ht⟩ := hpre
  have h1 : List.dropWhile isSpaceChar (List.rdropWhile isSpaceChar A)
      = List.rdropWhile isSpaceChar A := by
    apply dropWhile_stable_of_append (t := t)
    rw [ht]
    exact hA
  rw [stripChars, stripChars, h1, List.rdropWhile_idempotent]

theorem pyStrip_idem (s : String) : pyStrip (pyStrip s) = pyStrip s := by
  simp [pyStrip, stripChars_idem]

end ExamCode

namespace ExamCode

/-! ### Round-trip of the serializers through the parsers -/

theorem daysInMonth_le (y m : ℕ) : daysInMonth y m ≤ 31 := by
  unfold daysInMonth
  split_ifs <;> norm_num

theorem strptimeYMD_formatDate (dt : Date) (h : validDate dt = true) :
    strptimeYMD (formatDate dt) = some dt := by
  simp only [validDate, Bool.and_eq_true, decide_eq_true_eq] at h
  obtain ⟨⟨⟨⟨⟨hy1, hy2⟩, hm1⟩, hm2⟩, hd1⟩, hd2⟩ := h
  set P4 := padTo 4 (natStrBE dt.y) with hP4
  set P2m := padTo 2 (natStrBE dt.m) with hP2m
  set P2d := padTo 2 (natStrBE dt.d) with hP2d
  have h4d : ∀ c ∈ P4, isDigitChar c = true :=
    padTo_all_digits _ _ (natStrBE_all_digits dt.y)
  have h2md : ∀ c ∈ P2m, isDigitChar c = true :=
    padTo_all_digits _ _ (natStrBE_all_digits dt.m)
  have h2dd : ∀ c ∈ P2d, isDigitChar c = true :=
    padTo_all_digits _ _ (natStrBE_all_digits dt.d)
  have h4len : P4.length = 4 :=
    padTo_length _ _ (natStrBE_length _ 4 (by omega) (by norm_num))
  have h2mlen : P2m.length = 2 :=
    padTo_length _ _ (natStrBE_length _ 2 (by omega) (by norm_num))
  have h2dlen : P2d.length = 2 := by
    have := daysInMonth_le dt.y dt.m
    exact padTo_length _ _ (natStrBE_length _ 2 (by omega) (by norm_num))
  have hysval : digitsVal P4 = dt.y := by rw [hP4, digitsVal_padTo, digitsVal_natStrBE]
  have hmsval : digitsVal P2m = dt.m := by rw [hP2m, digitsVal_padTo, digitsVal_natStrBE]
  have hdsval : digitsVal P2d = dt.d := by rw [hP2d, digitsVal_padTo, digitsVal_natStrBE]
  have hbne : ∀ l : List Char, (∀ c ∈ l, isDigitChar c = true) →
      ∀ c ∈ l, (c != '-') = true :=
    fun l hl c hc => isDigitChar_bne_dash (hl c hc)
  have htw1 : (P4 ++ '-' :: (P2m ++ '-' :: P2d)).takeWhile (fun c => c != '-') = P4 :=
    takeWhile_all_append _ (hbne _ h4d) (by decide)
  have hdw1 : (P4 ++ '-' :: (P2m ++ '-' :: P2d)).dropWhile (fun c => c != '-')
      = '-' :: (P2m ++ '-' :: P2d) :=
    dropWhile_all_append _ (hbne _ h4d) (by decide)
  have htw2 : (P2m ++ '-' :: P2d).takeWhile (fun c => c != '-') = P2m :=
    takeWhile_all_append _ (hbne _ h2md) (by decide)
  have hdw2 : (P2m ++ '-' :: P2d).dropWhile (fun c => c != '-') = '-' :: P2d :=
    dropWhile_all_append _ (hbne _ h2md) (by decide)
  have hdata : (formatDate dt).data = P4 ++ '-' :: (P2m ++ '-' :: P2d) := by
    rw [hP4, hP2m, hP2d]
    simp [formatDate]
  have hday : dayGroup P2d = some dt.d := by
    obtain ⟨x, y, hxy⟩ : ∃ x y, P2d = [x, y] := by
      cases h2d : P2d with
      | nil => rw [h2d] at h2dlen; simp at h2dlen
      | cons x t =>
        cases t with
        | nil => rw [h2d] at h2dlen; simp at h2dlen
        | cons y t2 =>
          cases t2 with
          | nil => exact ⟨x, y, rfl⟩
          | cons z t3 => rw [h2d] at h2dlen; simp at h2dlen
    have hx : isDigitChar x = true := h2dd x (by rw [hxy]; exact List.mem_cons_self _ _)
    have hy : isDigitChar y = true := h2dd y (by rw [hxy]; simp)
    have hxs : ¬x = ' ' := isDigitChar_ne hx (fun h2 => absurd h2 (by decide))
    rw [hxy]
    simp only [dayGroup]
    rw [if_neg hxs, if_pos ⟨hx, hy⟩, ← hxy, hdsval]
  rw [strptimeYMD]
  simp only [hdata, htw1, hdw1, htw2, hdw2]
  have hcond : P4.length = 4 ∧ P4.all isDigitChar ∧
      P2m ≠ [] ∧ P2m.length ≤ 2 ∧ P2m.all isDigitChar := by
    refine ⟨h4len, List.all_eq_true.2 h4d, ?_, by omega, List.all_eq_true.2 h2md⟩
    apply List.ne_nil_of_length_pos
    omega
  rw [if_pos hcond]
  simp only [hday]
  have hdt : (⟨digitsVal P4, digitsVal P2m, dt.d⟩ : Date) = dt := by
    rw [hysval, hmsval]
  rw [hdt]
  have hv : validDate dt = true := by
    simp only [validDate, Bool.and_eq_true, decide_eq_true_eq]
    exact ⟨⟨⟨⟨⟨hy1, hy2⟩, hm1⟩, hm2⟩, hd1⟩, hd2⟩
  rw [if_pos hv]

theorem pdToDatetime_formatDate (dt : Date) (h : validDate dt = true)
    (hb : inPandasBounds dt = true) :
    pdToDatetime (formatDate dt) = some dt := by
  simp only [pdToDatetime, strptimeYMD_formatDate dt h, hb, if_true]

end ExamCode

namespace ExamCode

theorem parseMantissa_split (ipl fpl : List Char)
    (hip : ∀ c ∈ ipl, isDigitChar c = true) (hfp : ∀ c ∈ fpl, isDigitChar c = true)
    (hne : ipl ≠ []) :
    parseMantissa (ipl ++ '.' :: fpl)
      = some ((digitsVal ipl : ℚ) + (digitsVal fpl : ℚ) / (10 : ℚ) ^ fpl.length) := by
  have htw : (ipl ++ '.' :: fpl).takeWhile (fun c => c != '.') = ipl :=
    takeWhile_all_append _ (fun c hc => isDigitChar_bne_dot (hip c hc)) (by decide)
  have hdw : (ipl ++ '.' :: fpl).dropWhile (fun c => c != '.') = '.' :: fpl :=
    dropWhile_all_append _ (fun c hc => isDigitChar_bne_dot (hip c hc)) (by decide)
  rw [parseMantissa]
  simp only [htw, hdw]
  rw [if_pos ⟨Or.inl hne, List.all_eq_true.2 hip, List.all_eq_true.2 hfp⟩]

theorem parseUnsignedFloat_no_exp (cs : List Char)
    (h : ∀ c ∈ cs, (c != 'e' && c != 'E') = true) :
    parseUnsignedFloat cs = parseMantissa cs := by
  rw [parseUnsignedFloat]
  simp only [takeWhile_all _ cs h, dropWhile_all _ cs h]

theorem parse_render (m kk : ℕ) (hkk : 1 ≤ kk) :
    parseUnsignedFloat (natStrBE (m / 10 ^ kk) ++ '.' :: padTo kk (natStrBE (m % 10 ^ kk)))
      = some ((m : ℚ) / (10 : ℚ) ^ kk) := by
  set ipl := natStrBE (m / 10 ^ kk) with hipl
  set fpl := padTo kk (natStrBE (m % 10 ^ kk)) with hfpl
  have hip : ∀ c ∈ ipl, isDigitChar c = true := natStrBE_all_digits _
  have hfp : ∀ c ∈ fpl, isDigitChar c = true :=
    padTo_all_digits _ _ (natStrBE_all_digits _)
  have hmod : m % 10 ^ kk < 10 ^ kk := Nat.mod_lt _ (pow_pos (by norm_num) kk)
  have hfplen : fpl.length = kk :=
    padTo_length _ _ (natStrBE_length _ kk hmod hkk)
  have hnoexp : ∀ c ∈ ipl ++ '.' :: fpl, (c != 'e' && c != 'E') = true := by
    intro c hc
    rcases List.mem_append.1 hc with h1 | h1
    · exact isDigitChar_bne_exp (hip c h1)
    · rcases List.mem_cons.1 h1 with rfl | h2
      · decide
      · exact isDigitChar_bne_exp (hfp c h2)
  rw [parseUnsignedFloat_no_exp _ hnoexp,
    parseMantissa_split ipl fpl hip hfp (natStrBE_ne_nil _)]
  congr 1
  rw [hipl, hfpl, digitsVal_natStrBE, digitsVal_padTo, digitsVal_natStrBE, hfplen]
  have h10 : ((10 : ℚ)) ^ kk ≠ 0 := pow_ne_zero _ (by norm_num)
  have hnat : m / 10 ^ kk * 10 ^ kk + m % 10 ^ kk = m := by
    rw [mul_comm]
    exact Nat.div_add_mod m (10 ^ kk)
  rw [eq_div_iff h10, add_mul, div_mul_cancel₀ _ h10]
  exact_mod_cast hnat

theorem cast_mul_div_pow (a d kk : ℕ) (hdvd : d ∣ 10 ^ kk) (hd0 : (d : ℚ) ≠ 0) :
    ((a * (10 ^ kk / d) : ℕ) : ℚ) / (10 : ℚ) ^ kk = (a : ℚ) / (d : ℚ) := by
  have hp0 : ((10 : ℚ)) ^ kk ≠ 0 := pow_ne_zero _ (by norm_num)
  have hcast : ((10 ^ kk / d : ℕ) : ℚ) = (10 : ℚ) ^ kk / (d : ℚ) := by
    rw [Nat.cast_div hdvd hd0]
    push_cast
    ring
  rw [Nat.cast_mul, hcast]
  field_simp
  ring

theorem pyFloat_eq_of_strip (s : String) (c : Char) (rest : List Char)
    (h : stripChars s.data = c :: rest) :
    pyFloat s = if c = '-' then (parseUnsignedFloat rest).map (fun q => -q)
      else if c = '+' then parseUnsignedFloat rest
      else parseUnsignedFloat (c :: rest) := by
  rw [pyFloat, h]

theorem pyFloat_formatAmount (q : ℚ) (k : ℕ) (hk : decExp q = some k) :
    pyFloat (formatAmount q) = some q := by
  have hdvd : q.den ∣ 10 ^ k := by
    have := List.find?_some hk
    simpa using this
  have hdvd' : q.den ∣ 10 ^ (k + 1) := hdvd.trans (pow_dvd_pow 10 (Nat.le_succ k))
  set kk := k + 1 with hkkdef
  set n := q.num.natAbs * (10 ^ kk / q.den) with hn
  set body := natStrBE (n / 10 ^ kk) ++ '.' :: padTo kk (natStrBE (n % 10 ^ kk)) with hbody
  have hbodyd : ∀ c ∈ body, isDigitChar c = true ∨ c = '.' := by
    intro c hc
    rcases List.mem_append.1 hc with h1 | h1
    · exact Or.inl (natStrBE_all_digits _ c h1)
    · rcases List.mem_cons.1 h1 with rfl | h2
      · exact Or.inr rfl
      · exact Or.inl (padTo_all_digits _ _ (natStrBE_all_digits _) c h2)
  have hbodyns : ∀ c ∈ body, isSpaceChar c = false := by
    intro c hc
    rcases hbodyd c hc with h1 | rfl
    · exact isDigitChar_not_space h1
    · decide
  have hdata : (formatAmount q).data
      = (if q.num < 0 then ['-'] else []) ++ body := by
    simp only [formatAmount, hk, hbody, hn, hkkdef]
    rw [List.append_assoc]
  have hparse : parseUnsignedFloat body = some ((n : ℚ) / (10 : ℚ) ^ kk) :=
    parse_render n kk (by omega)
  have hden0 : (q.den : ℚ) ≠ 0 := by
    have := q.den_nz
    exact_mod_cast this
  have hval : (n : ℚ) / (10 : ℚ) ^ kk = (q.num.natAbs : ℚ) / (q.den : ℚ) := by
    rw [hn]
    exact cast_mul_div_pow q.num.natAbs q.den kk hdvd' hden0
  by_cases hneg : q.num < 0
  · have hlist : (formatAmount q).data = '-' :: body := by rw [hdata, if_pos hneg]; rfl
    have hstrip : stripChars ((formatAmount q).data) = '-' :: body := by
      rw [hlist]
      apply stripChars_of_no_space
      intro c hc
      rcases List.mem_cons.1 hc with rfl | h2
      · decide
      · exact hbodyns c h2
    have habs : (q.num.natAbs : ℤ) = -q.num := Int.ofNat_natAbs_of_nonpos (le_of_lt hneg)
    have habs' : (q.num.natAbs : ℚ) = -(q.num : ℚ) := by
      rw [← Int.cast_natCast (R := ℚ), habs, Int.cast_neg]
    have hq : -((n : ℚ) / (10 : ℚ) ^ kk) = q := by
      rw [hval, habs', neg_div, neg_neg, Rat.num_div_den]
    rw [pyFloat_eq_of_strip _ _ _ hstrip, if_pos rfl, hparse]
    simp only [Option.map_some']
    rw [hq]
  · have hlist : (formatAmount q).data = body := by rw [hdata, if_neg hneg]; rfl
    obtain ⟨c, ipt, hcons⟩ : ∃ c ipt, natStrBE (n / 10 ^ kk) = c :: ipt := by
      cases hx : natStrBE (n / 10 ^ kk) with
      | nil => exact absurd hx (natStrBE_ne_nil _)
      | cons c ipt => exact ⟨c, ipt, rfl⟩
    have hcd : isDigitChar c = true := by
      apply natStrBE_all_digits (n / 10 ^ kk)
      rw [hcons]
      exact List.mem_cons_self c ipt
    have hbody2 : body = c :: (ipt ++ '.' :: padTo kk (natStrBE (n % 10 ^ kk))) := by
      rw [hbody, hcons, List.cons_append]
    have hstrip : stripChars ((formatAmount q).data) = c :: (ipt ++ '.' :: padTo kk (natStrBE (n % 10 ^ kk))) := by
      rw [hlist, stripChars_of_no_space hbodyns, hbody2]
    have hc1 : ¬(c = '-') := isDigitChar_ne hcd (by intro h2; exact absurd h2 (by decide))
    have hc2 : ¬(c = '+') := isDigitChar_ne hcd (by intro h2; exact absurd h2 (by decide))
    have habs : (q.num.natAbs : ℤ) = q.num := Int.natAbs_of_nonneg (not_lt.1 hneg)
    have habs' : (q.num.natAbs : ℚ) = (q.num : ℚ) := by
      rw [← Int.cast_natCast (R := ℚ), habs]
    have hq : (n : ℚ) / (10 : ℚ) ^ kk = q := by
      rw [hval, habs', Rat.num_div_den]
    rw [pyFloat_eq_of_strip _ _ _ hstrip, if_neg hc1, if_neg hc2, ← hbody2, hparse, hq]

end ExamCode

namespace ExamCode

/-! ### Round-trip of whole rows through `to_csv` / `read_csv` / `_clean_data` -/

theorem formatDate_data_length (dt : Date) (h : validDate dt = true) :
    (formatDate dt).data.length = 10 := by
  simp only [validDate, Bool.and_eq_true, decide_eq_true_eq] at h
  obtain ⟨⟨⟨⟨⟨hy1, hy2⟩, hm1⟩, hm2⟩, hd1⟩, hd2⟩ := h
  have h4len : (padTo 4 (natStrBE dt.y)).length = 4 :=
    padTo_length _ _ (natStrBE_length _ 4 (by omega) (by norm_num))
  have h2mlen : (padTo 2 (natStrBE dt.m)).length = 2 :=
    padTo_length _ _ (natStrBE_length _ 2 (by omega) (by norm_num))
  have h2dlen : (padTo 2 (natStrBE dt.d)).length = 2 := by
    have := daysInMonth_le dt.y dt.m
    exact padTo_length _ _ (natStrBE_length _ 2 (by omega) (by norm_num))
  simp only [formatDate, List.length_append, List.length_cons, h4len, h2mlen, h2dlen]

theorem readCell_formatDate (dt : Date) (h : validDate dt = true) :
    readCell (formatDate dt) = some (formatDate dt) := by
  rw [readCell, if_neg]
  intro hmem
  have hlen := formatDate_data_length dt h
  simp only [naValues, List.mem_cons, List.not_mem_nil, or_false] at hmem
  rcases hmem with h'|h'|h'|h'|h'|h'|h'|h'|h'|h'|h'|h'|h'|h'|h'|h'|h'|h'|h' <;>
    (rw [h'] at hlen; exact absurd hlen (by decide))

theorem readCell_formatAmount (q : ℚ) (k : ℕ) (hk : decExp q = some k) :
    readCell (formatAmount q) = some (formatAmount q) := by
  have hdata : (formatAmount q).data
      = (if q.num < 0 then ['-'] else []) ++
        (natStrBE (q.num.natAbs * (10 ^ (k + 1) / q.den) / 10 ^ (k + 1)) ++
          '.' :: padTo (k + 1) (natStrBE (q.num.natAbs * (10 ^ (k + 1) / q.den) % 10 ^ (k + 1)))) := by
    simp only [formatAmount, hk]
    rw [List.append_assoc]
  have hdot : '.' ∈ (formatAmount q).data := by
    rw [hdata]
    exact List.mem_append.2 (Or.inr (List.mem_append.2 (Or.inr (List.mem_cons_self _ _))))
  have hchars : ∀ c ∈ (formatAmount q).data, c = '-' ∨ c = '.' ∨ isDigitChar c = true := by
    intro c hc
    rw [hdata] at hc
    rcases List.mem_append.1 hc with h1 | h1
    · by_cases hq : q.num < 0
      · rw [if_pos hq] at h1
        rcases List.mem_singleton.1 h1 with rfl
        exact Or.inl rfl
      · rw [if_neg hq] at h1
        exact absurd h1 (List.not_mem_nil c)
    · rcases List.mem_append.1 h1 with h2 | h2
      · exact Or.inr (Or.inr (natStrBE_all_digits _ c h2))
      · rcases List.mem_cons.1 h2 with rfl | h3
        · exact Or.inr (Or.inl rfl)
        · exact Or.inr (Or.inr (padTo_all_digits _ _ (natStrBE_all_digits _) c h3))
  rw [readCell, if_neg]
  intro hmem
  simp only [naValues, List.mem_cons, List.not_mem_nil, or_false] at hmem
  rcases hmem with h'|h'|h'|h'|h'|h'|h'|h'|h'|h'|h'|h'|h'|h'|h'|h'|h'|h'|h' <;>
    rw [h'] at hdot hchars <;>
    first
      | exact absurd hdot (by decide)
      | (have h3 := hchars '#' (by decide)
         rcases h3 with h3 | h3 | h3 <;> exact absurd h3 (by decide))

set_option maxRecDepth 40000 in
theorem cleanRow_serializeRecord (r : Record)
    (hd : validDate r.date = true) (hbd : inPandasBounds r.date = true)
    (ha : (decExp r.amount).isSome = true)
    (hcat : pyStrip r.category = r.category) (hcatna : r.category ∉ naValues)
    (hdesc : r.description ∉ naValues) :
    cleanRow (serializeRecord r) = some r := by
  obtain ⟨k, hk⟩ := Option.isSome_iff_exists.1 ha
  have h1 : (readCell (serializeRecord r).dateField).bind pdToDatetime = some r.date := by
    show (readCell (formatDate r.date)).bind pdToDatetime = some r.date
    rw [readCell_formatDate _ hd]
    exact pdToDatetime_formatDate _ hd hbd
  have h2 : (readCell (serializeRecord r).amountField).bind pdToNumeric = some r.amount := by
    show (readCell (formatAmount r.amount)).bind pdToNumeric = some r.amount
    rw [readCell_formatAmount _ k hk]
    exact pyFloat_formatAmount _ k hk
  have h3 : readCell (serializeRecord r).descriptionField = some r.description := by
    show readCell r.description = some r.description
    rw [readCell, if_neg hdesc]
  have h4 : pyStrip (pyStr (readCell (serializeRecord r).categoryField)) = r.category := by
    show pyStrip (pyStr (readCell r.category)) = r.category
    rw [readCell, if_neg hcatna]
    exact hcat
  rw [cleanRow, h1, h2, h3, h4]

end ExamCode

namespace ExamCode

theorem loadAndClean_map_serialize (c : List Record)
    (h : ∀ r ∈ c, RoundTrippable r) :
    loadAndClean (c.map serializeRecord) = c := by
  induction c with
  | nil => rfl
  | cons r t ih =>
    obtain ⟨h1, h1b, h2, h3, h4, h5⟩ := h r (List.mem_cons_self r t)
    rw [List.map_cons, loadAndClean, List.filterMap_cons,
      cleanRow_serializeRecord r h1 h1b h2 h3 h4 h5]
    rw [loadAndClean] at ih
    rw [ih (fun x hx => h x (List.mem_cons_of_mem r hx))]

/-! ### Filter-stage facts -/

theorem stageStart_sublist (sd : Option String) (df : List Record) :
    (stageStart sd df).Sublist df := by
  cases sd with
  | none => exact List.Sublist.refl df
  | some s =>
    cases h : pdToDatetime s with
    | none =>
      simp only [stageStart, h]
      exact List.filter_sublist df
    | some b =>
      simp only [stageStart, h]
      exact List.filter_sublist df

theorem stageEnd_sublist (ed : Option String) (df : List Record) :
    (stageEnd ed df).Sublist df := by
  cases ed with
  | none => exact List.Sublist.refl df
  | some s =>
    cases h : pdToDatetime s with
    | none =>
      simp only [stageEnd, h]
      exact List.filter_sublist df
    | some b =>
      simp only [stageEnd, h]
      exact List.filter_sublist df

theorem stageCats_sublist (cats : Option (List String)) (df : List Record) :
    (stageCats cats df).Sublist df := by
  cases cats with
  | none => exact List.Sublist.refl df
  | some cs =>
    simp only [stageCats]
    exact List.filter_sublist df

theorem stageMin_sublist (mn : Option ℚ) (df : List Record) :
    (stageMin mn df).Sublist df := by
  cases mn with
  | none => exact List.Sublist.refl df
  | some q =>
    simp only [stageMin]
    by_cases hq : q = 0
    · rw [if_pos hq]
    · rw [if_neg hq]
      exact List.filter_sublist df

theorem stageMax_sublist (mx : Option ℚ) (df : List Record) :
    (stageMax mx df).Sublist df := by
  cases mx with
  | none => exact List.Sublist.refl df
  | some q =>
    simp only [stageMax]
    by_cases hq : q = 0
    · rw [if_pos hq]
    · rw [if_neg hq]
      exact List.filter_sublist df

theorem stageStart_nil (sd : Option String) : stageStart sd [] = [] := by
  cases sd with
  | none => rfl
  | some s => cases h : pdToDatetime s <;> simp [stageStart, h]

theorem stageEnd_nil (ed : Option String) : stageEnd ed [] = [] := by
  cases ed with
  | none => rfl
  | some s => cases h : pdToDatetime s <;> simp [stageEnd, h]

theorem stageCats_nil (cats : Option (List String)) : stageCats cats [] = [] := by
  cases cats <;> simp [stageCats]

theorem stageMin_nil (mn : Option ℚ) : stageMin mn [] = [] := by
  cases mn with
  | none => rfl
  | some q => by_cases hq : q = 0 <;> simp [stageMin, hq]

theorem stageMax_nil (mx : Option ℚ) : stageMax mx [] = [] := by
  cases mx with
  | none => rfl
  | some q => by_cases hq : q = 0 <;> simp [stageMax, hq]

end ExamCode

namespace ExamCode

set_option maxRecDepth 400000

/-! ### Claim theorems -/

/-- C9: for every date text that `strptime` rejects for the fixed
`YYYY-MM-DD` format (here with numeric, strictly positive amount text),
`add_expense` fails with the `InvalidDateFormat` error and leaves the
tracker state (collection and file) unchanged. -/
theorem addExpense_invalid_date (s : TrackerState) (date amount category description : String)
    (hd : strptimeYMD date = none) (a : ℚ) (ha : pyFloat amount = some a) (hpos : 0 < a) :
    addExpense s date amount category description
      = ((false, some AddError.invalidDateFormat), s) := by
  simp only [addExpense, hd]

/-- C9 witness. -/
theorem addExpense_invalid_date_wit :
    addExpense ⟨[], []⟩ "2024-13-40" "10" "Food" "x"
      = ((false, some AddError.invalidDateFormat), (⟨[], []⟩ : TrackerState)) :=
  addExpense_invalid_date ⟨[], []⟩ "2024-13-40" "10" "Food" "x" (by decide) 10 (by decide)
    (by norm_num)

/-- C2 counterexample: a non-numeric amount ("abc") with a valid date makes
`float(amount)` raise `ValueError`, which the shared `except ValueError`
handler reports as the date-format error — not as `InvalidAmount` as the
claim states. -/
theorem addExpense_nonnumeric_kind_cex :
    (addExpense ⟨[], []⟩ "2024-01-05" "abc" "Food" "x").1.2
        = some AddError.invalidDateFormat ∧
    (addExpense ⟨[], []⟩ "2024-01-05" "abc" "Food" "x").1.2
        ≠ some AddError.invalidAmount := by
  decide

/-- C2 amended: for every amount text that is non-numeric or parses to a
value ≤ 0, add fails and the state is unchanged; the reported error kind
is `InvalidAmount` only when the date parses and the amount parses to a
non-positive number, and `InvalidDateFormat` when the amount text is
non-numeric (or the date itself is invalid), because `float`'s
`ValueError` is caught by the date-format handler. -/
theorem addExpense_bad_amount (s : TrackerState) (date amount category description : String)
    (h : pyFloat amount = none ∨ ∃ a, pyFloat amount = some a ∧ a ≤ 0) :
    (addExpense s date amount category description).1.1 = false ∧
    (addExpense s date amount category description).2 = s ∧
    (addExpense s date amount category description).1.2 =
      some (if strptimeYMD date = none ∨ pyFloat amount = none then AddError.invalidDateFormat
            else AddError.invalidAmount) := by
  cases hd : strptimeYMD date with
  | none =>
    refine ⟨?_, ?_, ?_⟩ <;> simp [addExpense, hd]
  | some dt =>
    rcases h with hna | ⟨a, ha, hle⟩
    · refine ⟨?_, ?_, ?_⟩ <;> simp [addExpense, hd, hna]
    · refine ⟨?_, ?_, ?_⟩ <;> simp [addExpense, hd, ha, hle]

/-- C2 witness (zero/negative side). -/
theorem addExpense_bad_amount_wit :
    (addExpense ⟨[], []⟩ "2024-01-05" "-5" "Food" "x").1.1 = false ∧
    (addExpense ⟨[], []⟩ "2024-01-05" "-5" "Food" "x").2 = (⟨[], []⟩ : TrackerState) ∧
    (addExpense ⟨[], []⟩ "2024-01-05" "-5" "Food" "x").1.2 =
      some (if strptimeYMD "2024-01-05" = none ∨ pyFloat "-5" = none then AddError.invalidDateFormat
            else AddError.invalidAmount) :=
  addExpense_bad_amount ⟨[], []⟩ "2024-01-05" "-5" "Food" "x"
    (Or.inr ⟨-5, by decide, by decide⟩)

/-- C1 counterexample: start from a file whose single row has an
unparsable date, so cleaning drops it from memory (count 0) but the file
keeps its 1 row.  A successful add then rewrites the file with the 1-row
collection: the persisted row count stays 1 instead of increasing to 2. -/
theorem addExpense_rowcount_cex :
    (addExpense (initTracker (some [⟨"garbage", "10", "Food", "x"⟩]))
        "2024-01-05" "10" "Food" "lunch").1.1 = true ∧
    (addExpense (initTracker (some [⟨"garbage", "10", "Food", "x"⟩]))
          "2024-01-05" "10" "Food" "lunch").2.file.length
      ≠ (initTracker (some [⟨"garbage", "10", "Food", "x"⟩])).file.length + 1 := by
  decide

/-- C1 amended: for every valid input tuple, add succeeds, appends the
new record (category trimmed) at the end of the collection preserving all
prior records and their order, and persists the full collection, so the
persisted store's row count equals the prior in-memory record count plus
one (an increase of exactly one whenever file and collection were in
sync, which a stale file with malformed rows can violate). -/
theorem addExpense_valid_appends (s : TrackerState) (date amount category description : String)
    (dt : Date) (hd : strptimeYMD date = some dt) (hb : inPandasBounds dt = true)
    (a : ℚ) (ha : pyFloat amount = some a) (hpos : 0 < a) :
    addExpense s date amount category description =
      ((true, none),
        ⟨s.data ++ [⟨dt, a, pyStrip category, description⟩],
          (s.data ++ [(⟨dt, a, pyStrip category, description⟩ : Record)]).map serializeRecord⟩) ∧
    (addExpense s date amount category description).2.file.length = s.data.length + 1 := by
  have hne : ¬a ≤ 0 := not_le.2 hpos
  refine ⟨?_, ?_⟩
  · simp only [addExpense, hd, ha, if_neg hne, hb, if_true]
  · simp only [addExpense, hd, ha, if_neg hne, hb, if_true]
    simp

/-- C1 witness. -/
theorem addExpense_valid_appends_wit :
    addExpense ⟨[], []⟩ "2024-01-05" "100" " Food " "lunch" =
      ((true, none),
        ⟨[⟨⟨2024, 1, 5⟩, 100, "Food", "lunch"⟩],
          [⟨"2024-01-05", "100.0", "Food", "lunch"⟩]⟩) ∧
    (addExpense ⟨[], []⟩ "2024-01-05" "100" " Food " "lunch").2.file.length = 0 + 1 := by
  have h := addExpense_valid_appends ⟨[], []⟩ "2024-01-05" "100" " Food " "lunch"
    ⟨2024, 1, 5⟩ (by decide) (by decide) 100 (by decide) (by norm_num)
  refine ⟨?_, h.2⟩
  rw [h.1]
  decide

/-- C3: `get_summary` returns the explicit no-data result exactly on the
empty collection; on any other collection it returns numeric statistics
whose total is the arithmetic sum of all record amounts and whose average
is that total divided by the record count. -/
theorem getSummary_spec :
    getSummary [] = SummaryResult.noData ∧
    (∀ data : List Record, data ≠ [] → getSummary data ≠ SummaryResult.noData) ∧
    (∀ (data : List Record) (t a : ℚ), getSummary data = SummaryResult.stats t a →
      t = ∑ i : Fin data.length, (data.get i).amount ∧ a = t / (data.length : ℚ)) := by
  refine ⟨rfl, ?_, ?_⟩
  · intro data hne
    rw [getSummary, if_neg (by simpa [List.isEmpty_iff] using hne)]
    simp
  · intro data t a h
    rw [getSummary] at h
    by_cases he : data.isEmpty
    · rw [if_pos he] at h
      exact absurd h (by simp)
    · rw [if_neg he] at h
      have h1 : totalAmount data = t := by
        cases h
        rfl
      have h2 : totalAmount data / (data.length : ℚ) = a := by
        cases h
        rfl
      constructor
      · rw [← h1, totalAmount, ← Fin.sum_univ_get' data Record.amount]
        rfl
      · rw [← h2, ← h1]

/-- C3 witness (the spec's own scenario: 100 + 50). -/
theorem getSummary_spec_wit :
    (150 : ℚ) =
      (∑ i : Fin (([⟨⟨2024, 1, 5⟩, 100, "Food", "lunch"⟩,
            ⟨⟨2024, 1, 6⟩, 50, "Transport", "bus"⟩] : List Record).length),
        (([⟨⟨2024, 1, 5⟩, 100, "Food", "lunch"⟩,
            ⟨⟨2024, 1, 6⟩, 50, "Transport", "bus"⟩] : List Record).get i).amount) ∧
    (75 : ℚ) = 150 / ((([⟨⟨2024, 1, 5⟩, 100, "Food", "lunch"⟩,
        ⟨⟨2024, 1, 6⟩, 50, "Transport", "bus"⟩] : List Record).length : ℕ) : ℚ) :=
  getSummary_spec.2.2 _ 150 75 (by norm_num [getSummary, totalAmount])

/-- C5 counterexample: add accepts a whitespace-only category and stores
the record with category stripped to the empty string, so the "non-empty
trimmed category" part of the claimed invariant fails (cleaning likewise
keeps such rows). -/
theorem category_invariant_cex :
    (addExpense ⟨[], []⟩ "2024-01-05" "10" " " "x").1.1 = true ∧
    (addExpense ⟨[], []⟩ "2024-01-05" "10" " " "x").2.data
      = [⟨⟨2024, 1, 5⟩, 10, "", "x"⟩] := by
  constructor
  · decide
  · decide

end ExamCode

namespace ExamCode

set_option maxRecDepth 400000

theorem cleanRow_category (row : RawRow) (r : Record) (h : cleanRow row = some r) :
    r.category = pyStrip (pyStr (readCell row.categoryField)) := by
  rw [cleanRow] at h
  cases hd : (readCell row.dateField).bind pdToDatetime with
  | none =>
    simp only [hd] at h
    exact Option.noConfusion h
  | some dt =>
    cases ha : (readCell row.amountField).bind pdToNumeric with
    | none =>
      simp only [hd, ha] at h
      exact Option.noConfusion h
    | some a =>
      cases hde : readCell row.descriptionField with
      | none =>
        simp only [hd, ha, hde] at h
        exact Option.noConfusion h
      | some de =>
        simp only [hd, ha, hde, Option.some.injEq] at h
        rw [← h]

/-- C5 amended: every record in the collection has a structurally valid
date and numeric amount (enforced by the `Record` type in this model) and
a whitespace-trimmed — possibly empty — category; load-plus-clean drops
exactly the rows whose date cell, amount cell, or description cell fails
to read (missing description included), and `add_expense` preserves the
trimmed-category property.  The "non-empty category" part of the original
claim is refuted by `category_invariant_cex`. -/
theorem clean_add_invariant :
    (∀ (rows : List RawRow) (r : Record), r ∈ loadAndClean rows →
      pyStrip r.category = r.category) ∧
    (∀ row : RawRow, cleanRow row = none ↔
      ((readCell row.dateField).bind pdToDatetime = none ∨
       (readCell row.amountField).bind pdToNumeric = none ∨
       readCell row.descriptionField = none)) ∧
    (∀ (s : TrackerState) (date amount category description : String),
      (∀ r ∈ s.data, pyStrip r.category = r.category) →
      ∀ r ∈ (addExpense s date amount category description).2.data,
        pyStrip r.category = r.category) := by
  refine ⟨?_, ?_, ?_⟩
  · intro rows r hr
    obtain ⟨row, _, hcr⟩ := List.mem_filterMap.1 hr
    rw [cleanRow_category row r hcr, pyStrip_idem]
  · intro row
    cases hd : (readCell row.dateField).bind pdToDatetime <;>
      cases ha : (readCell row.amountField).bind pdToNumeric <;>
        cases hde : readCell row.descriptionField <;>
          simp [cleanRow, hd, ha, hde]
  · intro s date amount category description hinv r hr
    cases hd : strptimeYMD date with
    | none =>
      simp only [addExpense, hd] at hr
      exact hinv r hr
    | some dt =>
      cases ha : pyFloat amount with
      | none =>
        simp only [addExpense, hd, ha] at hr
        exact hinv r hr
      | some a =>
        by_cases hle : a ≤ 0
        · simp only [addExpense, hd, ha, if_pos hle] at hr
          exact hinv r hr
        · by_cases hbd : inPandasBounds dt = true
          · simp only [addExpense, hd, ha, if_neg hle, hbd, if_true] at hr
            rcases List.mem_append.1 hr with h1 | h1
            · exact hinv r h1
            · rcases List.mem_singleton.1 h1 with rfl
              exact pyStrip_idem category
          · simp only [addExpense, hd, ha, if_neg hle, if_neg hbd] at hr
            exact hinv r hr

/-- C5 witness: the record just added by a successful add has a trimmed
category. -/
theorem clean_add_invariant_wit :
    pyStrip (⟨⟨2024, 1, 5⟩, 10, "Food", "x"⟩ : Record).category
      = (⟨⟨2024, 1, 5⟩, 10, "Food", "x"⟩ : Record).category :=
  clean_add_invariant.2.2 ⟨[], []⟩ "2024-01-05" "10" " Food " "x" (by simp)
    ⟨⟨2024, 1, 5⟩, 10, "Food", "x"⟩ (by decide)

/-- C6 counterexample: a record with empty description does not survive
the round trip — `to_csv` writes an empty Description cell, `read_csv`
reads it back as NaN, and `dropna` deletes the whole row — so the reloaded
collection is empty, not equal to the original. -/
theorem roundtrip_cex :
    loadAndClean (([⟨⟨2024, 1, 5⟩, 10, "Food", ""⟩] : List Record).map serializeRecord)
      ≠ [⟨⟨2024, 1, 5⟩, 10, "Food", ""⟩] := by
  decide

/-- C6 amended: persisting and reloading (through clean) restores the
collection exactly, for every collection whose records have a valid date,
a decimally representable amount, a trimmed category, and category and
description texts that are not NA spellings (in particular non-empty) —
the extra category/description conditions being forced by
`roundtrip_cex`. -/
theorem roundtrip_clean (c : List Record) (h : ∀ r ∈ c, RoundTrippable r) :
    loadAndClean (c.map serializeRecord) = c :=
  loadAndClean_map_serialize c h

/-- C6 witness. -/
theorem roundtrip_clean_wit :
    loadAndClean (([⟨⟨2024, 1, 5⟩, 10, "Food", "lunch"⟩] : List Record).map serializeRecord)
      = [⟨⟨2024, 1, 5⟩, 10, "Food", "lunch"⟩] :=
  roundtrip_clean _ (by decide)

/-- C4 counterexample: with one stored record, filtering with the
unparsable start bound "garbage" returns the empty frame — not the result
of the same call without that bound — so an unparsable bound is not
treated as unbounded. -/
theorem filter_unparsable_bound_cex :
    (filterExpenses ⟨[⟨⟨2024, 1, 5⟩, 100, "Food", "lunch"⟩], []⟩
        (some "garbage") none none none none).1
      ≠ (filterExpenses ⟨[⟨⟨2024, 1, 5⟩, 100, "Food", "lunch"⟩], []⟩
        none none none none none).1 := by
  decide

/-- C4 amended: a supplied start or end bound that fails to parse becomes
`NaT`, every date comparison against it is False, and the filter result is
empty (an unsatisfiable constraint), not the unbounded result. -/
theorem filter_unparsable_bound (s : TrackerState) (b : String)
    (hb : pdToDatetime b = none) (sd ed : Option String)
    (cats : Option (List String)) (mn mx : Option ℚ) :
    (filterExpenses s (some b) ed cats mn mx).1 = [] ∧
    (filterExpenses s sd (some b) cats mn mx).1 = [] := by
  constructor
  · have h1 : stageStart (some b) (s.data.map lowerRecord) = [] := by
      simp [stageStart, hb]
    simp only [filterExpenses, h1, stageEnd_nil, stageCats_nil, stageMin_nil, stageMax_nil]
  · have h1 : stageEnd (some b) (stageStart sd (s.data.map lowerRecord)) = [] := by
      simp [stageEnd, hb]
    simp only [filterExpenses, h1, stageCats_nil, stageMin_nil, stageMax_nil]

/-- C4 witness. -/
theorem filter_unparsable_bound_wit :
    (filterExpenses ⟨[⟨⟨2024, 1, 5⟩, 100, "Food", "lunch"⟩], []⟩
        (some "garbage") none none none none).1 = [] ∧
    (filterExpenses ⟨[⟨⟨2024, 1, 5⟩, 100, "Food", "lunch"⟩], []⟩
        none (some "garbage") none none none).1 = [] :=
  filter_unparsable_bound ⟨[⟨⟨2024, 1, 5⟩, 100, "Food", "lunch"⟩], []⟩ "garbage"
    (by decide) none none none none none

/-- C7: a supplied min or max bound of exactly zero is treated identically
to the bound not being supplied (Python's falsy zero), while a nonzero
supplied bound acts as an inclusive filter on the record amount. -/
theorem filter_zero_bound (s : TrackerState) (sd ed : Option String)
    (cats : Option (List String)) (mn mx : Option ℚ) (q : ℚ) (hq : q ≠ 0) :
    filterExpenses s sd ed cats (some 0) mx = filterExpenses s sd ed cats none mx ∧
    filterExpenses s sd ed cats mn (some 0) = filterExpenses s sd ed cats mn none ∧
    (filterExpenses s sd ed cats (some q) none).1 =
      ((filterExpenses s sd ed cats none none).1).filter (fun r => decide (q ≤ r.amount)) ∧
    (filterExpenses s sd ed cats none (some q)).1 =
      ((filterExpenses s sd ed cats none none).1).filter (fun r => decide (r.amount ≤ q)) := by
  refine ⟨?_, ?_, ?_, ?_⟩
  · simp [filterExpenses, stageMin]
  · simp [filterExpenses, stageMax]
  · simp [filterExpenses, stageMin, stageMax, hq]
  · simp [filterExpenses, stageMin, stageMax, hq]

/-- C7 witness. -/
theorem filter_zero_bound_wit :
    filterExpenses ⟨[], []⟩ none none none (some 0) none
        = filterExpenses ⟨[], []⟩ none none none none none ∧
    filterExpenses ⟨[], []⟩ none none none none (some 0)
        = filterExpenses ⟨[], []⟩ none none none none none ∧
    (filterExpenses ⟨[], []⟩ none none none (some 5) none).1 =
      ((filterExpenses ⟨[], []⟩ none none none none none).1).filter
        (fun r => decide ((5 : ℚ) ≤ r.amount)) ∧
    (filterExpenses ⟨[], []⟩ none none none none (some 5)).1 =
      ((filterExpenses ⟨[], []⟩ none none none none none).1).filter
        (fun r => decide (r.amount ≤ (5 : ℚ))) :=
  filter_zero_bound ⟨[], []⟩ none none none none none 5 (by norm_num)

/-- C8: category filtering is case-insensitive and trims both sides:
filtering by ["Food"] and by ["food"] gives identical results on every
state and argument combination, and a stored record whose category is
"Food " (trailing space) is selected by both. -/
theorem filter_category_case_insensitive :
    (∀ (s : TrackerState) (sd ed : Option String) (mn mx : Option ℚ),
      filterExpenses s sd ed (some ["Food"]) mn mx
        = filterExpenses s sd ed (some ["food"]) mn mx) ∧
    (∀ (s : TrackerState) (r : Record), r ∈ s.data → r.category = "Food " →
      lowerRecord r ∈ (filterExpenses s none none (some ["Food"]) none none).1 ∧
      lowerRecord r ∈ (filterExpenses s none none (some ["food"]) none none).1) := by
  have hmap : List.map catNorm ["Food"] = List.map catNorm ["food"] := by decide
  constructor
  · intro s sd ed mn mx
    simp only [filterExpenses, stageCats, hmap]
  · intro s r hr hcat
    have hmem : ∀ L : List String, List.map catNorm L = ["food"] →
        lowerRecord r ∈ (filterExpenses s none none (some L) none none).1 := by
      intro L hL
      simp only [filterExpenses, stageStart, stageEnd, stageMin, stageMax, stageCats, hL]
      refine List.mem_filter.2 ⟨List.mem_map_of_mem lowerRecord hr, ?_⟩
      have hlc : (lowerRecord r).category = "food" := by
        show catNorm r.category = "food"
        rw [hcat]
        decide
      simp [hlc]
    exact ⟨hmem ["Food"] (by decide), hmem ["food"] (by decide)⟩

/-- C8 witness. -/
theorem filter_category_case_insensitive_wit :
    lowerRecord ⟨⟨2024, 1, 5⟩, 100, "Food ", "lunch"⟩ ∈
      (filterExpenses ⟨[⟨⟨2024, 1, 5⟩, 100, "Food ", "lunch"⟩], []⟩
        none none (some ["Food"]) none none).1 ∧
    lowerRecord ⟨⟨2024, 1, 5⟩, 100, "Food ", "lunch"⟩ ∈
      (filterExpenses ⟨[⟨⟨2024, 1, 5⟩, 100, "Food ", "lunch"⟩], []⟩
        none none (some ["food"]) none none).1 :=
  filter_category_case_insensitive.2 ⟨[⟨⟨2024, 1, 5⟩, 100, "Food ", "lunch"⟩], []⟩
    ⟨⟨2024, 1, 5⟩, 100, "Food ", "lunch"⟩ (by decide) (by decide)

/-- C10: filtering never mutates the tracker state — the state returned is
the input state; the returned frame is a subsequence of the working copy,
i.e. of the collection with every record's category trimmed and
lower-cased (not the original stored casing); and with no constraints it
is exactly that working copy. -/
theorem filterExpenses_frame (s : TrackerState) (sd ed : Option String)
    (cats : Option (List String)) (mn mx : Option ℚ) :
    (filterExpenses s sd ed cats mn mx).2 = s ∧
    List.Sublist (filterExpenses s sd ed cats mn mx).1 (s.data.map lowerRecord) ∧
    (filterExpenses s none none none none none).1 = s.data.map lowerRecord := by
  refine ⟨rfl, ?_, rfl⟩
  exact ((((stageMax_sublist mx _).trans (stageMin_sublist mn _)).trans
    (stageCats_sublist cats _)).trans (stageEnd_sublist ed _)).trans (stageStart_sublist sd _)

end ExamCode
